import Mathlib

/-!
Verification of the cash-flow extraction pipeline (`estrai_flussi_cassa.py`).

Shallow embedding conventions:
* Spreadsheet cells are `Cell`: empty (pandas `NaN`), a number (Python float,
  idealized as `ℚ`), or a text (`List Nat` of code points; the scripts only
  compare ASCII, so ASCII-level lowercasing is modelled).
* Python strings are modelled as `List Nat` of code points; Python string
  comparison (used by `sorted` and `DataFrame.sort_values`) is code-point
  lexicographic order, modelled by `lexLtB` / `lexLeB`.
* `float(x)` on a string is modelled by `parseDec`, a plain decimal parser
  (sign, digits, optional fractional part); on parse failure the scripts
  substitute `0`, which is all the claims depend on.
* `str(x)` on a numeric cell is modelled by `ratStr` (sign, integer part,
  '.', fractional digits) — an idealization of Python float rendering; no
  claim depends on the exact digits it produces.
-/

namespace Flussi

/-- ASCII lowercase of one code point, modelling `str.lower()` on the ASCII
range that all the compared tokens live in. -/
def toLowerC (c : Nat) : Nat := if 65 ≤ c ∧ c ≤ 90 then c + 32 else c

/-- `str.lower()` on a code-point string. -/
def lowerStr (s : List Nat) : List Nat := s.map toLowerC

/-- Python whitespace stripped by `str.strip()`. -/
def isWsC (c : Nat) : Bool := c = 32 ∨ c = 9 ∨ c = 10 ∨ c = 13 ∨ c = 11 ∨ c = 12

/-- `str.strip()`: drop leading and trailing whitespace. -/
def stripWs (s : List Nat) : List Nat :=
  ((s.dropWhile isWsC).reverse.dropWhile isWsC).reverse

/-- Does `pat` occur at the head of `s`? (`str.startswith`). -/
def startsWithB : List Nat → List Nat → Bool
  | [], _ => true
  | _ :: _, [] => false
  | p :: ps, c :: cs => p = c && startsWithB ps cs

/-- Substring test, `pat in s` on Python strings. -/
def isSubstrB (pat : List Nat) : List Nat → Bool
  | [] => startsWithB pat []
  | c :: cs => startsWithB pat (c :: cs) || isSubstrB pat cs

/-- Strict code-point lexicographic order on strings, Python `s < t`. -/
def lexLtB : List Nat → List Nat → Bool
  | [], [] => false
  | [], _ :: _ => true
  | _ :: _, [] => false
  | a :: as_, b :: bs => a < b || (a = b && lexLtB as_ bs)

/-- Python `s <= t` on strings. -/
def lexLeB (a b : List Nat) : Bool := lexLtB a b || a = b

/-- Decimal digit test on a code point. -/
def isDigitB (c : Nat) : Bool := 48 ≤ c ∧ c ≤ 57

/-- Big-endian decimal digits of a natural number (value of each entry,
not its code point). -/
def natDigitsBE (n : Nat) : List Nat :=
  if _h : n < 10 then [n] else natDigitsBE (n / 10) ++ [n % 10]
  decreasing_by exact Nat.div_lt_self (by omega) (by omega)

/-- Decimal rendering of a natural number as code points. -/
def natStr (n : Nat) : List Nat := (natDigitsBE n).map (· + 48)

/-- Python `f"{m:02d}"`: left-pad the decimal rendering to width 2. -/
def pad2 (m : Nat) : List Nat := if m < 10 then 48 :: natStr m else natStr m

/-- The sort key `f"{anno}-{mese:02d}"` built by `elabora_tutti_i_pivot`. -/
def fmtData (anno mese : Nat) : List Nat := natStr anno ++ 45 :: pad2 mese

/-- The display label `f"{mese:02d}/{anno}"`. -/
def fmtLabel (mese anno : Nat) : List Nat := pad2 mese ++ 47 :: natStr anno

/-- Value of a big-endian digit list. -/
def valBE (l : List Nat) : Nat := l.foldl (fun a d => 10 * a + d) 0

/-- Fractional-part decimal digits (as code points) of `num/den`, fuel-bounded;
models the finitely many digits Python prints for a float. -/
def fracDigits : Nat → Nat → Nat → List Nat
  | 0, _, _ => []
  | _ + 1, 0, _ => []
  | fuel + 1, num, den => (num * 10 / den + 48) :: fracDigits fuel (num * 10 % den) den

/-- Model of Python `str` on a numeric cell: sign, integer part, a dot and
the fractional digits (a plain `.0` for integral values, as Python prints
for floats). An idealization of shortest-roundtrip float rendering; no claim
depends on the digits themselves. -/
def ratStr (q : ℚ) : List Nat :=
  let sgn : List Nat := if q < 0 then [45] else []
  let a : ℚ := |q|
  let ip : Nat := a.num.toNat / a.den
  let fr : Nat := a.num.toNat % a.den
  sgn ++ natStr ip ++ 46 :: (if fr = 0 then [48] else fracDigits 17 fr a.den)

/-- Model of `float()` applied to a string: optional sign, decimal digits
with an optional single dot (`"12"`, `"12.5"`, `".5"`, `"12."`); anything
else fails. Exotic accepted forms (exponents, `inf`, `nan`) are not needed
by any table the claims touch and are modelled as failures. -/
def parseUnsigned (s : List Nat) : Option ℚ :=
  let ip := s.takeWhile isDigitB
  let rest := s.dropWhile isDigitB
  match rest with
  | [] => if ip.isEmpty then none else some (valBE (ip.map (· - 48)) : ℚ)
  | 46 :: fp =>
    if fp.all isDigitB ∧ ¬(ip.isEmpty ∧ fp.isEmpty) then
      some ((valBE (ip.map (· - 48)) : ℚ) +
        (valBE (fp.map (· - 48)) : ℚ) / (10 : ℚ) ^ fp.length)
    else none
  | _ => none

/-- `float()` on a stripped string, with sign. -/
def parseDec (s0 : List Nat) : Option ℚ :=
  match stripWs s0 with
  | 45 :: r => (parseUnsigned r).map (fun q => -q)
  | 43 :: r => parseUnsigned r
  | s => parseUnsigned s

/-- One spreadsheet cell as read by `pd.read_excel(header=None)`. -/
inductive Cell where
  | empty : Cell
  | num : ℚ → Cell
  | text : List Nat → Cell
deriving DecidableEq

abbrev Row := List Cell
abbrev Table := List Row

/-- Python `str()` of a non-null cell value (used in messages and labels). -/
def pyStrCell : Cell → List Nat
  | .empty => [110, 97, 110]
  | .num q => ratStr q
  | .text s => s

/-- Code points of `"esclud"`. -/
def escludCodes : List Nat := [101, 115, 99, 108, 117, 100]

/-- Code points of `"(blank)"`. -/
def blankCodes : List Nat := [40, 98, 108, 97, 110, 107, 41]

/-- Code points of `"categoria"`. -/
def categoriaCodes : List Nat := [99, 97, 116, 101, 103, 111, 114, 105, 97]

/-- Code points of `"row labels"`. -/
def rowLabelsCodes : List Nat := [114, 111, 119, 32, 108, 97, 98, 101, 108, 115]

/-- Code points of `"Sum of Importo"` (matched case-sensitively). -/
def sumImportoCodes : List Nat :=
  [83, 117, 109, 32, 111, 102, 32, 73, 109, 112, 111, 114, 116, 111]

/-- Code points of `"grand total"`. -/
def grandTotalCodes : List Nat :=
  [103, 114, 97, 110, 100, 32, 116, 111, 116, 97, 108]

/-- Code points of `"-"`. -/
def dashCodes : List Nat := [45]

/-- Code points of `"nan"`. -/
def nanCodes : List Nat := [110, 97, 110]

/-- Code points of `"pivot"`. -/
def pivotCodes : List Nat := [112, 105, 118, 111, 116]

/-! ## Filter verifier (`verifica_filtro_escludi`, lines 21-46) -/

/-- The diagnostic outcome attached to the boolean verdict.  `wrongValue v`
models the f-string naming the offending value `v`; `valueNotFound` the fixed
"Valore del filtro 'Escludi' non trovato" message; `advisory` the
"Campo 'Escludi' non trovato nel foglio" warning. -/
inductive MsgV where
  | wrongValue : List Nat → MsgV
  | valueNotFound : MsgV
  | advisory : MsgV
deriving DecidableEq

/-- `pd.notna(val) and 'esclud' in str(val).lower()`. -/
def isMarkerCell : Cell → Bool
  | .empty => false
  | c => isSubstrB escludCodes (lowerStr (pyStrCell c))

/-- `pd.notna(v) and str(v).lower() == '(blank)'`. -/
def isBlankCell : Cell → Bool
  | .empty => false
  | c => lowerStr (pyStrCell c) = blankCodes

/-- The verdict produced once the marker cell is found at column `j` of
`row`: look at column `j+1` (absent exactly when `j+1 ≥ len(row)`). -/
def markerVerdict (row : Row) (j : Nat) : Bool × Option MsgV :=
  match row[j + 1]? with
  | some c2 =>
    if isBlankCell c2 then (true, none)
    else (false, some (.wrongValue (pyStrCell c2)))
  | none => (false, some .valueNotFound)

/-- Inner loop of `verifica_filtro_escludi`: scan the cells of one row
left to right for the marker, returning the verdict of the first hit. -/
def scanCellsV (row : Row) : Nat → List Cell → Option (Bool × Option MsgV)
  | _, [] => none
  | j, c :: rest =>
    if isMarkerCell c then some (markerVerdict row j)
    else scanCellsV row (j + 1) rest

/-- Outer loop: first row containing a marker decides; otherwise the
advisory warning. -/
def scanRowsV : List Row → Bool × Option MsgV
  | [] => (true, some .advisory)
  | r :: rest =>
    match scanCellsV r 0 r with
    | some res => res
    | none => scanRowsV rest

/-- `verifica_filtro_escludi(df)`: only the first `min(5, len(df))` rows
are scanned. -/
def verifica_filtro_escludi (t : Table) : Bool × Option MsgV :=
  scanRowsV (t.take 5)

/-- First index satisfying `p`, with the characterization lemmas proved
below (the Python `for ... break` search). -/
def findIdxO (p : α → Bool) : List α → Option Nat
  | [] => none
  | a :: l => if p a then some 0 else (findIdxO p l).map (· + 1)

/-- Row-major scan for the first marker cell, numbering rows from `i`. -/
def firstMarkerGo : List Row → Nat → Option (Nat × Nat)
  | [], _ => none
  | r :: rest, i =>
    match findIdxO isMarkerCell r with
    | some j => some (i, j)
    | none => firstMarkerGo rest (i + 1)

/-- Position (row, column) of the first marker cell in the scanned window,
row-major. -/
def firstMarker (t : Table) : Option (Nat × Nat) :=
  firstMarkerGo (t.take 5) 0

/-! ## Period extraction (`estrai_mese_anno`, lines 102-110) -/

/-- Try to match `\d{2}-\d{4}` at the head of the string, yielding
`(mese, anno)`. -/
def matchMYHere : List Nat → Option (Nat × Nat)
  | c1 :: c2 :: d :: c3 :: c4 :: c5 :: c6 :: _ =>
    if isDigitB c1 ∧ isDigitB c2 ∧ d = 45 ∧
       isDigitB c3 ∧ isDigitB c4 ∧ isDigitB c5 ∧ isDigitB c6 then
      some (10 * (c1 - 48) + (c2 - 48),
        1000 * (c3 - 48) + 100 * (c4 - 48) + 10 * (c5 - 48) + (c6 - 48))
    else none
  | _ => none

/-- `re.search(r'(\d{2})-(\d{4})', sheet_name)`: leftmost match wins;
`None, None` when the pattern does not occur. -/
def estrai_mese_anno : List Nat → Option (Nat × Nat)
  | [] => none
  | c :: rest =>
    match matchMYHere (c :: rest) with
    | some my => some my
    | none => estrai_mese_anno rest

/-! ## Hierarchy reconstructor (`estrai_dati_categoria`, lines 113-249) -/

/-- Header criterion of the first scan: some cell whose lowered text equals
`'categoria'` or `'row labels'` (empty cells yield `''` and never match). -/
def rowMatchesHdr1 (r : Row) : Bool :=
  r.any fun c =>
    match c with
    | .empty => false
    | c => lowerStr (pyStrCell c) = categoriaCodes ||
           lowerStr (pyStrCell c) = rowLabelsCodes

/-- Header criterion of the fallback scan: some cell whose (unlowered) text
contains `'Sum of Importo'`. -/
def rowMatchesHdr2 (r : Row) : Bool :=
  r.any fun c =>
    match c with
    | .empty => false
    | c => isSubstrB sumImportoCodes (pyStrCell c)

/-- Header row search (lines 120-134): a full scan for the first criterion,
then — only if it found nothing — a second full scan for the fallback. -/
def headerRow (t : Table) : Option Nat :=
  match findIdxO rowMatchesHdr1 t with
  | some i => some i
  | none => findIdxO rowMatchesHdr2 t

/-- The header rule as the specification words it: one top-down scan where
either criterion can fire, topmost match of either wins.  Kept separate from
`headerRow` (the source behaviour) for the refinement comparison. -/
def specHeaderRow (t : Table) : Option Nat :=
  findIdxO (fun r => rowMatchesHdr1 r || rowMatchesHdr2 r) t

/-- Label of a data row (lines 148-156): cell 0, stringified and stripped;
`None`/empty/`'nan'`/`'(blank)'` rows are skipped (`none`). -/
def labelOf (row : Row) : Option (List Nat) :=
  match row[0]? with
  | some Cell.empty => none
  | none => none
  | some c =>
    let s := stripWs (pyStrCell c)
    if s.isEmpty then none
    else if lowerStr s = nanCodes ∨ lowerStr s = blankCodes then none
    else some s

/-- Amount of a data row (lines 159-164): fixed value column 1; missing or
null cells and failed `float()` parses all become `0`. -/
def importoOf (row : Row) : ℚ :=
  match row[1]? with
  | some (Cell.num q) => q
  | some (Cell.text s) => (parseDec s).getD 0
  | _ => 0

/-- One retained data row. -/
structure RowData where
  nome : List Nat
  importo : ℚ
deriving DecidableEq

/-- Row collection (lines 144-174): walk the rows after the header, keep
labelled rows, and stop at the `'grand total'` row, capturing its amount. -/
def collectRows : List Row → List RowData × Option ℚ
  | [] => ([], none)
  | r :: rest =>
    match labelOf r with
    | none => collectRows rest
    | some s =>
      if lowerStr s = grandTotalCodes then ([], some (importoOf r))
      else
        let (rs, gt) := collectRows rest
        (⟨s, importoOf r⟩ :: rs, gt)

/-- How the subcategory accumulation loop (lines 196-220) ended.  The tag is
inert for the produced output; it names the loop's exit branch. -/
inductive FineGruppo where
  | matched : FineGruppo
  | dashTerm : FineGruppo
  | overshoot : FineGruppo
  | exhausted : FineGruppo
deriving DecidableEq

/-- The inner `while j < len(rows_data)` loop: given the category amount and
the running sum so far, return the accumulated subcategory rows, the rows
left unconsumed, and the exit branch taken. -/
def collectSubs (catAmt : ℚ) (somma : ℚ) :
    List RowData → List RowData × List RowData × FineGruppo
  | [] => ([], [], .exhausted)
  | r :: rest =>
    if r.nome = dashCodes ∧ |r.importo - catAmt| < 1 / 100 then
      ([], rest, .dashTerm)
    else if |somma + r.importo - catAmt| < 1 / 100 then
      ([r], rest, .matched)
    else if |somma + r.importo| ≤ |catAmt| + 1 / 100 then
      let (subs, rest', k) := collectSubs catAmt (somma + r.importo) rest
      (r :: subs, rest', k)
    else
      ([], r :: rest, .overshoot)

theorem collectSubs_rest_length (catAmt somma : ℚ) (l : List RowData) :
    (collectSubs catAmt somma l).2.1.length ≤ l.length := by
  induction l generalizing somma with
  | nil => simp [collectSubs]
  | cons r rest ih =>
    simp only [collectSubs]
    split
    · simp
    · split
      · simp
      · split
        · have := ih (somma + r.importo)
          revert this
          cases collectSubs catAmt (somma + r.importo) rest with
          | mk a b => simp; omega
        · simp

/-- Flow direction tag (`'entrata'` / `'uscita'`). -/
inductive Tipo where
  | entrata : Tipo
  | uscita : Tipo
deriving DecidableEq

/-- One reconstructed record of `risultati`. -/
structure Entry where
  categoria : List Nat
  sottocategoria : Option (List Nat)
  importo : ℚ
  tipo : Tipo
deriving DecidableEq

/-- The outer `while i < len(rows_data)` loop (lines 180-247): dash-labelled
category rows are skipped; otherwise the inner loop collects candidate
subcategories; a nonempty collection is emitted one entry per non-dash row
(advancing past the consumed rows), an empty one yields the flat category
entry (advancing one row). -/
def partitionRows : List RowData → List Entry
  | [] => []
  | c :: rest =>
    if c.nome = dashCodes then partitionRows rest
    else
      match hres : collectSubs c.importo 0 rest with
      | (subs, rest', _) =>
        let tipo : Tipo := if 0 ≤ c.importo then .entrata else .uscita
        if subs.isEmpty then
          ⟨c.nome, none, c.importo, tipo⟩ :: partitionRows rest
        else
          subs.filterMap (fun s =>
            if s.nome = dashCodes then none
            else some ⟨c.nome, some s.nome, s.importo, tipo⟩)
            ++ partitionRows rest'
  termination_by l => l.length
  decreasing_by
    all_goals simp only [List.length_cons]
    · omega
    · omega
    · have h := collectSubs_rest_length r.importo 0 rest
      rw [hres] at h
      simp only at h
      omega

/-- `estrai_dati_categoria(df)`: locate the header, collect the data rows
after it (capturing the grand total), and partition them into groups.
No header means the empty result with a null grand total (lines 136-137). -/
def estrai_dati_categoria (t : Table) : List Entry × Option ℚ :=
  match headerRow t with
  | none => ([], none)
  | some h =>
    let (rows, gt) := collectRows (t.drop (h + 1))
    (partitionRows rows, gt)

/-! ## Period aggregation (`elabora_tutti_i_pivot`, lines 252-329) -/

/-- `q` is an exact two-decimal currency amount. -/
def is2dec (q : ℚ) : Prop := ∃ n : ℤ, q = (n : ℚ) / 100

/-- Python `round` to the nearest integer, ties to even. -/
def roundHalfEven (x : ℚ) : ℤ :=
  let f := ⌊x⌋
  let r := x - f
  if r < 1 / 2 then f
  else if 1 / 2 < r then f + 1
  else if f % 2 = 0 then f else f + 1

/-- Python `round(x, 2)`. -/
def round2 (q : ℚ) : ℚ := (roundHalfEven (q * 100) : ℚ) / 100

/-- One row of `dati_consolidati`. -/
structure Det where
  data : List Nat
  dataLabel : List Nat
  mese : Nat
  anno : Nat
  categoria : List Nat
  sottocategoria : Option (List Nat)
  importo : ℚ
  tipo : Tipo
deriving DecidableEq

/-- One row of `riepilogo_mensile` (the per-period summary). -/
structure Riep where
  data : List Nat
  dataLabel : List Nat
  mese : Nat
  anno : Nat
  totale_entrate : ℚ
  totale_uscite : ℚ
  saldo : ℚ
deriving DecidableEq

/-- The `totale_entrate` / `totale_uscite` accumulation (lines 288-307). -/
def totali : List Entry → ℚ × ℚ
  | [] => (0, 0)
  | e :: rest =>
    let (te, tu) := totali rest
    match e.tipo with
    | .entrata => (te + e.importo, tu)
    | .uscita => (te, tu + e.importo)

/-- One iteration of the sheet loop: reconstruct, tag every entry with the
period, and build the period summary, preferring the sheet's grand total as
the balance (lines 280-324). -/
def processSheet (mese anno : Nat) (t : Table) : List Det × Riep :=
  let (ris, gt) := estrai_dati_categoria t
  let (te, tu) := totali ris
  let saldoRaw : ℚ := match gt with | some g => g | none => te + tu
  let d := fmtData anno mese
  let lbl := fmtLabel mese anno
  (ris.map fun e => ⟨d, lbl, mese, anno, e.categoria, e.sottocategoria, e.importo, e.tipo⟩,
   ⟨d, lbl, mese, anno, round2 te, round2 tu, round2 saldoRaw⟩)

/-- The sheet loop over the (name-sorted) pivot sheets: sheets whose name
yields no `MM-YYYY` token are skipped; every other sheet contributes its
detail rows and exactly one summary row. -/
def elaboraGo : List (List Nat × Table) → List Det × List Riep
  | [] => ([], [])
  | (name, t) :: rest =>
    match estrai_mese_anno name with
    | none => elaboraGo rest
    | some (mese, anno) =>
      let (dets, riep) := processSheet mese anno t
      let (ds, rs) := elaboraGo rest
      (dets ++ ds, riep :: rs)

/-- Python `sorted` comparison on the sheet names (code-point order). -/
def nameLe (a b : List Nat × Table) : Prop := lexLeB a.1 b.1 = true

instance : DecidableRel nameLe := fun a b =>
  inferInstanceAs (Decidable (lexLeB a.1 b.1 = true))

/-- `elabora_tutti_i_pivot`: keep the sheets whose lowered name starts with
`'pivot'`, iterate them in sorted name order, and accumulate the detail and
summary collections.  A sheet is modelled as its name paired with its grid. -/
def elabora_tutti_i_pivot (sheets : List (List Nat × Table)) :
    List Det × List Riep :=
  elaboraGo (List.insertionSort nameLe
    (sheets.filter fun s => startsWithB pivotCodes (lowerStr s.1)))

/-! ## Final sorting (`salva_risultati`, lines 343-347) -/

/-- `sort_values('data')`: Python string order on the `'data'` key. -/
def riepLe (a b : Riep) : Prop := lexLeB a.data b.data = true

instance : DecidableRel riepLe := fun a b =>
  inferInstanceAs (Decidable (lexLeB a.data b.data = true))

/-- `sort_values(['data', 'categoria'])`: string order on `'data'`, ties
broken by string order on `'categoria'`. -/
def detLe (a b : Det) : Prop :=
  (lexLtB a.data b.data ||
    (a.data = b.data && lexLeB a.categoria b.categoria)) = true

instance : DecidableRel detLe := fun a b =>
  inferInstanceAs (Decidable ((lexLtB a.data b.data ||
    (a.data = b.data && lexLeB a.categoria b.categoria)) = true))

/-- `salva_risultati`: sort the detail rows by `(data, categoria)` and the
summary rows by `data`.  (Sorting an empty collection is the identity, so
the `df.empty` guards of the source are behaviourally absorbed.) -/
def salva_risultati (dets : List Det) (rieps : List Riep) :
    List Det × List Riep :=
  (List.insertionSort detLe dets, List.insertionSort riepLe rieps)

/-- Ascending order on `(year, month)` — the order the claims speak about. -/
def ymLe (a b : Riep) : Prop :=
  a.anno < b.anno ∨ (a.anno = b.anno ∧ a.mese ≤ b.mese)

instance : DecidableRel ymLe := fun a b =>
  inferInstanceAs (Decidable (a.anno < b.anno ∨ (a.anno = b.anno ∧ a.mese ≤ b.mese)))

/-- Ascending order on `((year, month), category)` for the detail rows. -/
def detYmLe (a b : Det) : Prop :=
  (a.anno < b.anno ∨ (a.anno = b.anno ∧ a.mese < b.mese)) ∨
    (a.anno = b.anno ∧ a.mese = b.mese ∧ lexLeB a.categoria b.categoria = true)

instance : DecidableRel detYmLe := fun a b =>
  inferInstanceAs (Decidable ((a.anno < b.anno ∨ (a.anno = b.anno ∧ a.mese < b.mese)) ∨
    (a.anno = b.anno ∧ a.mese = b.mese ∧ lexLeB a.categoria b.categoria = true)))




/-! ## Characterization of the first-match search -/

theorem findIdxO_eq_some_iff {α : Type} (p : α → Bool) :
    ∀ (l : List α) (i : Nat), findIdxO p l = some i ↔
      (∃ a, l[i]? = some a ∧ p a = true) ∧
        ∀ j, j < i → ∀ a, l[j]? = some a → p a = false := by
  intro l
  induction l with
  | nil => intro i; simp [findIdxO]
  | cons a l ih =>
    intro i
    simp only [findIdxO]
    by_cases hpa : p a = true
    · simp only [hpa, if_pos]
      constructor
      · intro h
        cases h
        exact ⟨⟨a, by simp, hpa⟩, fun j hj => absurd hj (by omega)⟩
      · rintro ⟨⟨b, hb, hpb⟩, hmin⟩
        cases i with
        | zero => rfl
        | succ k =>
          have := hmin 0 (by omega) a (by simp)
          rw [this] at hpa
          exact absurd hpa (by simp)
    · simp only [if_neg hpa]
      constructor
      · intro h
        rcases Option.map_eq_some'.mp h with ⟨k, hk, rfl⟩
        rcases (ih k).mp hk with ⟨⟨b, hb, hpb⟩, hmin⟩
        refine ⟨⟨b, by simpa using hb, hpb⟩, ?_⟩
        intro j hj c hc
        cases j with
        | zero =>
          simp only [List.getElem?_cons_zero, Option.some_inj] at hc
          subst hc
          simpa using hpa
        | succ j' =>
          simp only [List.getElem?_cons_succ] at hc
          exact hmin j' (by omega) c hc
      · rintro ⟨⟨b, hb, hpb⟩, hmin⟩
        cases i with
        | zero =>
          simp only [List.getElem?_cons_zero, Option.some_inj] at hb
          subst hb
          exact absurd hpb hpa
        | succ k =>
          simp only [List.getElem?_cons_succ] at hb
          have : findIdxO p l = some k := by
            refine (ih k).mpr ⟨⟨b, hb, hpb⟩, ?_⟩
            intro j hj c hc
            exact hmin (j + 1) (by omega) c (by simpa using hc)
          rw [this]
          rfl

theorem findIdxO_eq_none_iff {α : Type} (p : α → Bool) (l : List α) :
    findIdxO p l = none ↔ ∀ a ∈ l, p a = false := by
  induction l with
  | nil => simp [findIdxO]
  | cons a l ih =>
    simp only [findIdxO]
    by_cases hpa : p a = true
    · simp [hpa]
    · simp only [if_neg hpa, Option.map_eq_none', ih, List.mem_cons]
      constructor
      · rintro h b (rfl | hb)
        · simpa using hpa
        · exact h b hb
      · intro h b hb
        exact h b (Or.inr hb)

/-! ## Claim C4 — header location -/

/-- A table whose topmost header-like cell satisfies only the value-column
(substring) criterion, while a later row satisfies the equality criterion. -/
def tHdrC4 : Table := [[Cell.text sumImportoCodes], [Cell.text categoriaCodes]]

/-- C4 (counterexample): the data-start boundary is NOT the topmost row
matching either criterion.  On `tHdrC4` the `'Sum of Importo'` cell sits in
row 0 and the `'categoria'` cell in row 1, yet `headerRow` picks row 1,
while the single-scan rule worded by the spec (`specHeaderRow`) picks row 0. -/
theorem c4_counterexample :
    headerRow tHdrC4 = some 1 ∧ specHeaderRow tHdrC4 = some 0 ∧
      headerRow tHdrC4 ≠ specHeaderRow tHdrC4 := by
  refine ⟨by decide, by decide, by decide⟩

/-- C4 (amended): the header search is two sequential full scans, not one.
`headerRow` returns `i` iff either row `i` is the topmost row containing a
cell equal (case-insensitively) to the category-column header or to
`'row labels'`, or no row at all satisfies that criterion and row `i` is the
topmost row containing the value-column header substring. -/
theorem c4_header_two_phase (t : Table) (i : Nat) :
    headerRow t = some i ↔
      ((∃ r, t[i]? = some r ∧ rowMatchesHdr1 r = true) ∧
        (∀ j, j < i → ∀ r, t[j]? = some r → rowMatchesHdr1 r = false)) ∨
      ((∀ r ∈ t, rowMatchesHdr1 r = false) ∧
        (∃ r, t[i]? = some r ∧ rowMatchesHdr2 r = true) ∧
        (∀ j, j < i → ∀ r, t[j]? = some r → rowMatchesHdr2 r = false)) := by
  unfold headerRow
  cases h1 : findIdxO rowMatchesHdr1 t with
  | some k =>
    simp only [Option.some_inj]
    rcases (findIdxO_eq_some_iff rowMatchesHdr1 t k).mp h1 with ⟨⟨r, hr, hpr⟩, hmin⟩
    constructor
    · rintro rfl
      exact Or.inl ⟨⟨r, hr, hpr⟩, hmin⟩
    · rintro (⟨⟨r', hr', hpr'⟩, hmin'⟩ | ⟨hforall, _, _⟩)
      · rcases Nat.lt_trichotomy k i with hlt | heq | hgt
        · rw [hmin' k hlt r hr] at hpr
          exact absurd hpr (by simp)
        · exact heq
        · rw [hmin i hgt r' hr'] at hpr'
          exact absurd hpr' (by simp)
      · have : r ∈ t := by
          have := List.getElem?_eq_some_iff.mp hr
          rcases this with ⟨hlt, hget⟩
          exact hget ▸ List.getElem_mem hlt
        rw [hforall r this] at hpr
        exact absurd hpr (by simp)
  | none =>
    have hall : ∀ r ∈ t, rowMatchesHdr1 r = false :=
      (findIdxO_eq_none_iff rowMatchesHdr1 t).mp h1
    rw [findIdxO_eq_some_iff]
    constructor
    · intro h
      exact Or.inr ⟨hall, h.1, h.2⟩
    · rintro (⟨⟨r, hr, hpr⟩, _⟩ | ⟨_, hex, hmin⟩)
      · have : r ∈ t := by
          rcases List.getElem?_eq_some_iff.mp hr with ⟨hlt, hget⟩
          exact hget ▸ List.getElem_mem hlt
        rw [hall r this] at hpr
        exact absurd hpr (by simp)
      · exact ⟨hex, hmin⟩


/-! ## Claim C9 — period key bounds -/

theorem matchMYHere_bounds : ∀ (l : List Nat) (m y : Nat),
    matchMYHere l = some (m, y) → m ≤ 99 ∧ y ≤ 9999 := by
  intro l m y h
  rcases l with _ | ⟨c1, _ | ⟨c2, _ | ⟨d, _ | ⟨c3, _ | ⟨c4, _ | ⟨c5, _ | ⟨c6, tail⟩⟩⟩⟩⟩⟩⟩ <;>
    simp only [matchMYHere] at h <;>
    try exact Option.noConfusion h
  split_ifs at h with hc
  simp only [Option.some_inj, Prod.mk.injEq] at h
  obtain ⟨rfl, rfl⟩ := h
  simp only [isDigitB, decide_eq_true_eq] at hc
  omega

/-- C9 (amended): the period extractor performs no 1..12 validation: for an
accepted sheet name the month component is simply the numeric value of the
two-digit token (0..99) and the year that of the four-digit token
(≤ 9999). -/
theorem c9_month_unvalidated (s : List Nat) (m y : Nat)
    (h : estrai_mese_anno s = some (m, y)) : m ≤ 99 ∧ y ≤ 9999 := by
  induction s with
  | nil => simp [estrai_mese_anno] at h
  | cons c rest ih =>
    rw [estrai_mese_anno] at h
    cases hm : matchMYHere (c :: rest) with
    | some my =>
      rw [hm] at h
      simp only [Option.some_inj] at h
      subst h
      exact matchMYHere_bounds _ m y hm
    | none =>
      rw [hm] at h
      exact ih h

theorem c9_month_unvalidated_witness : 99 ≤ 99 ∧ 2024 ≤ 9999 :=
  c9_month_unvalidated [80, 105, 118, 111, 116, 32, 57, 57, 45, 50, 48, 50, 52]
    99 2024 (by decide)

/-- The sheet name `"Pivot 99-2024"`. -/
def nome99 : List Nat := [80, 105, 118, 111, 116, 32, 57, 57, 45, 50, 48, 50, 52]

/-- C9 (counterexample): the sheet name `"Pivot 99-2024"` contains the
two-digit–hyphen–four-digit token `99-2024`, is accepted by the period
extractor, and yields month 99 ∉ 1..12; processing that sheet emits a
period summary carrying month 99. -/
theorem c9_counterexample :
    estrai_mese_anno nome99 = some (99, 2024) ∧ ¬(99 ≤ 12) ∧
      ((elabora_tutti_i_pivot [(nome99, [[]])]).2).map Riep.mese = [99] := by
  refine ⟨by decide, by omega, ?_⟩
  simp [elabora_tutti_i_pivot, elaboraGo, processSheet, List.insertionSort,
    estrai_dati_categoria, headerRow, findIdxO, rowMatchesHdr1, rowMatchesHdr2,
    show estrai_mese_anno nome99 = some (99, 2024) by decide,
    show startsWithB pivotCodes (lowerStr nome99) = true by decide]

/-! ## Claim C8 — local error policy of the reconstructor -/

/-- C8: the reconstructor degrades instead of failing: a table with no
recognizable header row yields the empty entry list with a null grand
total, and a row whose amount cell is a string that fails decimal parsing
contributes amount `0`.  (Totality of `estrai_dati_categoria` itself —
"never raises" — is inherent to the embedding: every case is defined.) -/
theorem c8_error_policy :
    (∀ t : Table, headerRow t = none → estrai_dati_categoria t = ([], none)) ∧
    (∀ (row : Row) (s : List Nat), row[1]? = some (Cell.text s) →
      parseDec s = none → importoOf row = 0) := by
  constructor
  · intro t h
    simp [estrai_dati_categoria, h]
  · intro row s h1 h2
    simp [importoOf, h1, h2]

theorem c8_error_policy_witness :
    estrai_dati_categoria [[Cell.text [97]]] = ([], none) ∧
      importoOf [Cell.empty, Cell.text [120]] = 0 :=
  ⟨c8_error_policy.1 [[Cell.text [97]]] (by decide),
   c8_error_policy.2 [Cell.empty, Cell.text [120]] [120] (by decide) (by decide)⟩

/-! ## Structural lemmas about the grouping loop -/

theorem collectSubs_rest_subset (catAmt : ℚ) (l : List RowData) :
    ∀ somma, ∀ x ∈ (collectSubs catAmt somma l).2.1, x ∈ l := by
  induction l with
  | nil => intro somma x hx; simp [collectSubs] at hx
  | cons r rest ih =>
    intro somma x hx
    simp only [collectSubs] at hx
    split at hx
    · exact List.mem_cons_of_mem r hx
    · split at hx
      · exact List.mem_cons_of_mem r hx
      · split at hx
        · rcases hcol : collectSubs catAmt (somma + r.importo) rest with ⟨subs, rest2, k⟩
          rw [hcol] at hx
          simp only at hx
          exact List.mem_cons_of_mem r (ih (somma + r.importo) x (by rw [hcol]; exact hx))
        · exact hx

theorem estrai_dati_eq_some (t : Table) (h : Nat) (hh : headerRow t = some h) :
    estrai_dati_categoria t =
      (partitionRows (collectRows (t.drop (h + 1))).1,
        (collectRows (t.drop (h + 1))).2) := by
  unfold estrai_dati_categoria
  rw [hh]

/-! ## Claim C10 — dash placeholder rows never surface -/

theorem partitionRows_no_dash_sub :
    ∀ (rows : List RowData) (e : Entry), e ∈ partitionRows rows →
      e.sottocategoria ≠ some dashCodes := by
  have main : ∀ (n : Nat) (rows : List RowData), rows.length ≤ n →
      ∀ e ∈ partitionRows rows, e.sottocategoria ≠ some dashCodes := by
    intro n
    induction n with
    | zero =>
      intro rows hlen e he
      rcases rows with _ | ⟨c, rest⟩
      · simp [partitionRows] at he
      · simp at hlen
    | succ n ih =>
      intro rows hlen e he
      rcases rows with _ | ⟨c, rest⟩
      · simp [partitionRows] at he
      · rw [partitionRows] at he
        by_cases hd : c.nome = dashCodes
        · rw [if_pos hd] at he
          exact ih rest (by simp at hlen; omega) e he
        · rw [if_neg hd] at he
          rcases hcol : collectSubs c.importo 0 rest with ⟨subs, rest2, k⟩
          rw [hcol] at he
          simp only at he
          by_cases hsub : subs.isEmpty
          · rw [if_pos hsub] at he
            rcases List.mem_cons.mp he with rfl | he2
            · simp
            · exact ih rest (by simp at hlen; omega) e he2
          · rw [if_neg hsub] at he
            rcases List.mem_append.mp he with hin | he2
            · rcases List.mem_filterMap.mp hin with ⟨s, _, hs⟩
              by_cases hds : s.nome = dashCodes
              · rw [if_pos hds] at hs
                exact absurd hs (by simp)
              · rw [if_neg hds] at hs
                simp only [Option.some_inj] at hs
                subst hs
                simp only [ne_eq, Option.some_inj]
                exact hds
            · have hr2 := collectSubs_rest_length c.importo 0 rest
              rw [hcol] at hr2
              simp only at hr2
              simp only [List.length_cons] at hlen
              exact ih rest2 (by omega) e he2
  intro rows e he
  exact main rows.length rows (le_refl _) e he

/-- C10: no entry reconstructed from any table carries the single-dash
placeholder as its subcategory: dash-labelled rows consumed inside a group
contribute their amount to the running sum (`collectSubs` accumulates them)
but are dropped by the emission filter. -/
theorem c10_no_dash_subcategory (t : Table) (e : Entry)
    (he : e ∈ (estrai_dati_categoria t).1) :
    e.sottocategoria ≠ some dashCodes := by
  cases hh : headerRow t with
  | none =>
    unfold estrai_dati_categoria at he
    rw [hh] at he
    simp at he
  | some h =>
    rw [estrai_dati_eq_some t h hh] at he
    exact partitionRows_no_dash_sub _ e he

/-- A table whose only group is `A = 10` over rows `'-' = 4` and `X = 6`:
the dash row's amount is needed for the running-sum match (4 + 6 = 10) yet
no dash subcategory is emitted. -/
def tDashC10 : Table := [[Cell.text categoriaCodes],
  [Cell.text [65], Cell.num 10], [Cell.text [45], Cell.num 4],
  [Cell.text [88], Cell.num 6]]

theorem c10_no_dash_subcategory_witness :
    (⟨[65], some [88], 6, .entrata⟩ : Entry) ∈ (estrai_dati_categoria tDashC10).1 ∧
      (⟨[65], some [88], 6, .entrata⟩ : Entry).sottocategoria ≠ some dashCodes := by
  have heval : (estrai_dati_categoria tDashC10).1 =
      [⟨[65], some [88], 6, .entrata⟩] := by
    norm_num [estrai_dati_categoria, headerRow, findIdxO, rowMatchesHdr1, rowMatchesHdr2,
      lowerStr, toLowerC, pyStrCell, categoriaCodes, rowLabelsCodes, tDashC10, collectRows,
      labelOf, importoOf, stripWs, isWsC, nanCodes, blankCodes, grandTotalCodes,
      partitionRows, collectSubs, dashCodes, List.any, List.dropWhile, List.takeWhile,
      List.filterMap_cons, List.filterMap_nil]
  have hm : (⟨[65], some [88], 6, .entrata⟩ : Entry) ∈ (estrai_dati_categoria tDashC10).1 := by
    rw [heval]; exact List.mem_singleton.mpr rfl
  exact ⟨hm, c10_no_dash_subcategory tDashC10 _ hm⟩

/-! ## Claim C3 — flow direction inherited from the category row -/

theorem partitionRows_tipo_from_category :
    ∀ (rows : List RowData) (e : Entry), e ∈ partitionRows rows →
      ∃ c ∈ rows, e.categoria = c.nome ∧ (e.tipo = .entrata ↔ 0 ≤ c.importo) := by
  have main : ∀ (n : Nat) (rows : List RowData), rows.length ≤ n →
      ∀ e ∈ partitionRows rows,
        ∃ c ∈ rows, e.categoria = c.nome ∧ (e.tipo = .entrata ↔ 0 ≤ c.importo) := by
    intro n
    induction n with
    | zero =>
      intro rows hlen e he
      rcases rows with _ | ⟨c, rest⟩
      · simp [partitionRows] at he
      · simp at hlen
    | succ n ih =>
      intro rows hlen e he
      rcases rows with _ | ⟨c, rest⟩
      · simp [partitionRows] at he
      · rw [partitionRows] at he
        by_cases hd : c.nome = dashCodes
        · rw [if_pos hd] at he
          rcases ih rest (by simp at hlen; omega) e he with ⟨c2, hc2, hrest⟩
          exact ⟨c2, List.mem_cons_of_mem c hc2, hrest⟩
        · rw [if_neg hd] at he
          rcases hcol : collectSubs c.importo 0 rest with ⟨subs, rest2, k⟩
          rw [hcol] at he
          simp only at he
          by_cases hsub : subs.isEmpty
          · rw [if_pos hsub] at he
            rcases List.mem_cons.mp he with rfl | he2
            · refine ⟨c, List.mem_cons_self c rest, rfl, ?_⟩
              by_cases h0 : 0 ≤ c.importo
              · simp [if_pos h0, h0]
              · simp [if_neg h0, h0]
            · rcases ih rest (by simp at hlen; omega) e he2 with ⟨c2, hc2, hrest⟩
              exact ⟨c2, List.mem_cons_of_mem c hc2, hrest⟩
          · rw [if_neg hsub] at he
            rcases List.mem_append.mp he with hin | he2
            · rcases List.mem_filterMap.mp hin with ⟨s, _, hs⟩
              by_cases hds : s.nome = dashCodes
              · rw [if_pos hds] at hs
                exact absurd hs (by simp)
              · rw [if_neg hds] at hs
                simp only [Option.some_inj] at hs
                subst hs
                refine ⟨c, List.mem_cons_self c rest, rfl, ?_⟩
                by_cases h0 : 0 ≤ c.importo
                · simp [if_pos h0, h0]
                · simp [if_neg h0, h0]
            · have hr2 := collectSubs_rest_length c.importo 0 rest
              rw [hcol] at hr2
              simp only at hr2
              simp only [List.length_cons] at hlen
              rcases ih rest2 (by omega) e he2 with ⟨c2, hc2, hrest⟩
              have : c2 ∈ rest := by
                have hsubm := collectSubs_rest_subset c.importo rest 0
                rw [hcol] at hsubm
                exact hsubm c2 hc2
              exact ⟨c2, List.mem_cons_of_mem c this, hrest⟩
  intro rows e he
  exact main rows.length rows (le_refl _) e he

/-- C3: every reconstructed entry's flow direction is decided by the sign
of its parent category row's amount: `kind = income` iff that amount is
`≥ 0`.  The parent row is a retained data row of the table (for flat
entries it is the entry's own category row). -/
theorem c3_sign_inherited (t : Table) (e : Entry)
    (he : e ∈ (estrai_dati_categoria t).1) :
    ∃ hIdx, headerRow t = some hIdx ∧
      ∃ c ∈ (collectRows (t.drop (hIdx + 1))).1,
        e.categoria = c.nome ∧ (e.tipo = .entrata ↔ 0 ≤ c.importo) := by
  cases hh : headerRow t with
  | none =>
    unfold estrai_dati_categoria at he
    rw [hh] at he
    simp at he
  | some h =>
    rw [estrai_dati_eq_some t h hh] at he
    rcases partitionRows_tipo_from_category _ e he with ⟨c, hc, hprop⟩
    exact ⟨h, rfl, c, hc, hprop⟩

/-- A table with one expense category `A = -10` whose subcategories are
`P = 2` (positive!) and `Q = -12`: the positive subcategory still inherits
`expense` from its negative parent. -/
def tNegC3 : Table := [[Cell.text categoriaCodes],
  [Cell.text [65], Cell.num (-10)], [Cell.text [80], Cell.num 2],
  [Cell.text [81], Cell.num (-12)]]

theorem c3_sign_inherited_witness :
    (⟨[65], some [80], 2, .uscita⟩ : Entry) ∈ (estrai_dati_categoria tNegC3).1 ∧
      (∃ hIdx, headerRow tNegC3 = some hIdx ∧
        ∃ c ∈ (collectRows (tNegC3.drop (hIdx + 1))).1,
          (⟨[65], some [80], 2, .uscita⟩ : Entry).categoria = c.nome ∧
            ((⟨[65], some [80], 2, .uscita⟩ : Entry).tipo = .entrata ↔ 0 ≤ c.importo)) := by
  have heval : (estrai_dati_categoria tNegC3).1 =
      [⟨[65], some [80], 2, .uscita⟩, ⟨[65], some [81], -12, .uscita⟩] := by
    norm_num [estrai_dati_categoria, headerRow, findIdxO, rowMatchesHdr1, rowMatchesHdr2,
      lowerStr, toLowerC, pyStrCell, categoriaCodes, rowLabelsCodes, tNegC3, collectRows,
      labelOf, importoOf, stripWs, isWsC, nanCodes, blankCodes, grandTotalCodes,
      partitionRows, collectSubs, dashCodes, List.any, List.dropWhile, List.takeWhile,
      List.filterMap_cons, List.filterMap_nil]
  have hm : (⟨[65], some [80], 2, .uscita⟩ : Entry) ∈ (estrai_dati_categoria tNegC3).1 := by
    rw [heval]; exact List.mem_cons_self _ _
  exact ⟨hm, c3_sign_inherited tNegC3 _ hm⟩

/-! ## Claim C2 — partition completeness -/

/-- Sum of the amounts of a list of data rows. -/
def sumAmt (l : List RowData) : ℚ := (l.map RowData.importo).sum

theorem collectSubs_matched_sum (catAmt : ℚ) :
    ∀ (l : List RowData) (somma : ℚ) (subs rest : List RowData),
      collectSubs catAmt somma l = (subs, rest, .matched) →
      |somma + sumAmt subs - catAmt| < 1 / 100 := by
  intro l
  induction l with
  | nil =>
    intro somma subs rest h
    simp [collectSubs] at h
  | cons r rest0 ih =>
    intro somma subs rest h
    simp only [collectSubs] at h
    split at h
    · simp at h
    · split at h
      next hmatch =>
        simp only [Prod.mk.injEq] at h
        obtain ⟨rfl, rfl, -⟩ := h
        simpa [sumAmt] using hmatch
      · split at h
        · rcases hcol : collectSubs catAmt (somma + r.importo) rest0 with ⟨subs2, rest2, k⟩
          rw [hcol] at h
          simp only [Prod.mk.injEq] at h
          obtain ⟨rfl, rfl, rfl⟩ := h
          have := ih (somma + r.importo) subs2 rest2 hcol
          rw [sumAmt] at this ⊢
          simp only [List.map_cons, List.sum_cons]
          have harr : somma + (r.importo + (subs2.map RowData.importo).sum) =
              somma + r.importo + (subs2.map RowData.importo).sum := by ring
          rw [harr]
          exact this
        · simp at h

/-- C2 (amended): partition completeness holds for the groups that the
running-sum accumulation closes with a tolerance match, and it holds for
the sum of ALL accumulated subcategory rows — including dash placeholder
rows, which count toward the sum but are dropped from the output.  Groups
ended by overshoot, by data exhaustion, or by a dash terminator can carry
emitted subcategory sums that differ from the category amount by more than
the 0.01 tolerance. -/
theorem c2_matched_groups_sum (catAmt : ℚ) (rows subs rest : List RowData)
    (h : collectSubs catAmt 0 rows = (subs, rest, .matched)) :
    |sumAmt subs - catAmt| < 1 / 100 := by
  have := collectSubs_matched_sum catAmt rows 0 subs rest h
  simpa using this

theorem c2_matched_groups_sum_witness :
    collectSubs 10 0 [⟨[45], 4⟩, ⟨[88], 6⟩] = ([⟨[45], 4⟩, ⟨[88], 6⟩], [], .matched) ∧
      |sumAmt [⟨[45], 4⟩, ⟨[88], 6⟩] - 10| < 1 / 100 := by
  have hcol : collectSubs 10 0 [⟨[45], 4⟩, ⟨[88], 6⟩] =
      ([(⟨[45], 4⟩ : RowData), ⟨[88], 6⟩], [], .matched) := by
    norm_num [collectSubs, dashCodes]
  exact ⟨hcol, c2_matched_groups_sum 10 [⟨[45], 4⟩, ⟨[88], 6⟩] _ _ hcol⟩

/-- A table with two offending groups: category `A = 10` over a dash row
`'-' = 4` and `X = 6` (matched, but the dash amount is dropped from the
output), and category `B = 10` over `C = 5` followed by `D = 8`
(overshoot: the partial group `[C]` is emitted). -/
def tSumC2 : Table := [[Cell.text categoriaCodes],
  [Cell.text [65], Cell.num 10], [Cell.text [45], Cell.num 4],
  [Cell.text [88], Cell.num 6], [Cell.text [66], Cell.num 10],
  [Cell.text [67], Cell.num 5], [Cell.text [68], Cell.num 8]]

/-- C2 (counterexample): on `tSumC2` the retained data rows put amount 10
on category `A` (`[65]`) and on category `B` (`[66]`), yet the only emitted
subcategory of `A` is `X = 6` and the only emitted subcategory of `B` is
`C = 5`: both groups' emitted amounts sum to a value farther than 0.01
from their category's amount, refuting partition completeness as stated. -/
theorem c2_counterexample :
    (estrai_dati_categoria tSumC2).1 =
      [⟨[65], some [88], 6, .entrata⟩, ⟨[66], some [67], 5, .entrata⟩,
        ⟨[68], none, 8, .entrata⟩] ∧
      (collectRows (tSumC2.drop 1)).1 =
        [⟨[65], 10⟩, ⟨[45], 4⟩, ⟨[88], 6⟩, ⟨[66], 10⟩, ⟨[67], 5⟩, ⟨[68], 8⟩] ∧
      ¬(|(6 : ℚ) - 10| < 1 / 100) ∧ ¬(|(5 : ℚ) - 10| < 1 / 100) := by
  refine ⟨?_, ?_, by rw [abs_sub_comm]; norm_num [abs_of_pos], by rw [abs_sub_comm]; norm_num [abs_of_pos]⟩
  · norm_num [estrai_dati_categoria, headerRow, findIdxO, rowMatchesHdr1, rowMatchesHdr2,
      lowerStr, toLowerC, pyStrCell, categoriaCodes, rowLabelsCodes, tSumC2, collectRows,
      labelOf, importoOf, stripWs, isWsC, nanCodes, blankCodes, grandTotalCodes,
      partitionRows, collectSubs, dashCodes, List.any, List.dropWhile, List.takeWhile,
      List.filterMap_cons, List.filterMap_nil]
  · norm_num [tSumC2, collectRows, labelOf, importoOf, stripWs, isWsC, nanCodes,
      blankCodes, grandTotalCodes, lowerStr, toLowerC, pyStrCell, categoriaCodes,
      List.dropWhile, List.takeWhile]

/-! ## Claim C1 — overshoot handling -/

theorem collectSubs_overshoot_run (catAmt : ℚ) :
    ∀ (subs : List RowData) (somma : ℚ) (r : RowData) (rest' : List RowData),
      (∀ k (hk : k < subs.length),
        ¬(subs[k].nome = dashCodes ∧ |subs[k].importo - catAmt| < 1 / 100) ∧
        ¬(|somma + sumAmt (subs.take (k + 1)) - catAmt| < 1 / 100) ∧
        |somma + sumAmt (subs.take (k + 1))| ≤ |catAmt| + 1 / 100) →
      ¬(r.nome = dashCodes ∧ |r.importo - catAmt| < 1 / 100) →
      ¬(|somma + sumAmt subs + r.importo - catAmt| < 1 / 100) →
      ¬(|somma + sumAmt subs + r.importo| ≤ |catAmt| + 1 / 100) →
      collectSubs catAmt somma (subs ++ r :: rest') = (subs, r :: rest', .overshoot) := by
  intro subs
  induction subs with
  | nil =>
    intro somma r rest' _ hr1 hr2 hr3
    simp only [sumAmt, List.map_nil, List.sum_nil, add_zero] at hr2 hr3
    simp only [List.nil_append, collectSubs]
    rw [if_neg hr1, if_neg hr2, if_neg hr3]
  | cons s subs' ih =>
    intro somma r rest' hpref hr1 hr2 hr3
    have h0 := hpref 0 (by simp)
    simp only [List.getElem_cons_zero, List.take_succ_cons, List.take_zero, sumAmt,
      List.map_cons, List.map_nil, List.sum_cons, List.sum_nil, add_zero] at h0
    obtain ⟨h0a, h0b, h0c⟩ := h0
    simp only [List.cons_append, collectSubs]
    rw [if_neg h0a, if_neg h0b, if_pos h0c]
    have hrec := ih (somma + s.importo) r rest' ?_ hr1 ?_ ?_
    · simp only [List.append_eq]
      rw [hrec]
    · intro k hk
      have hks := hpref (k + 1) (by simp; omega)
      simp only [List.getElem_cons_succ, List.take_succ_cons, sumAmt, List.map_cons,
        List.sum_cons] at hks
      obtain ⟨ha, hb, hc⟩ := hks
      refine ⟨ha, ?_, ?_⟩
      · simp only [sumAmt]
        have : somma + s.importo + ((subs'.take (k + 1)).map RowData.importo).sum =
            somma + (s.importo + ((subs'.take (k + 1)).map RowData.importo).sum) := by ring
        rw [this]
        exact hb
      · simp only [sumAmt]
        have : somma + s.importo + ((subs'.take (k + 1)).map RowData.importo).sum =
            somma + (s.importo + ((subs'.take (k + 1)).map RowData.importo).sum) := by ring
        rw [this]
        exact hc
    · simp only [sumAmt, List.map_cons, List.sum_cons] at hr2 ⊢
      intro hcontra
      apply hr2
      have : somma + (s.importo + (subs'.map RowData.importo).sum) + r.importo =
          somma + s.importo + (subs'.map RowData.importo).sum + r.importo := by ring
      rw [this]
      exact hcontra
    · simp only [sumAmt, List.map_cons, List.sum_cons] at hr3 ⊢
      intro hcontra
      apply hr3
      have : somma + (s.importo + (subs'.map RowData.importo).sum) + r.importo =
          somma + s.importo + (subs'.map RowData.importo).sum + r.importo := by ring
      rw [this]
      exact hcontra

/-- C1 (amended): when the accumulation for category `c` overshoots at row
`r` without ever having matched within tolerance, the loop stops before
`r`, but the partially-built subcategory list is NOT discarded: when rows
were accumulated they are emitted as subcategory entries of `c` (dash rows
filtered out), and `r` starts the next category; the category falls back
to a flat entry only when the overshoot happened before any row was
accumulated. -/
theorem c1_overshoot_keeps_partial (c : RowData) (subs : List RowData)
    (r : RowData) (rest' : List RowData)
    (hc : ¬c.nome = dashCodes)
    (hpref : ∀ k (hk : k < subs.length),
      ¬(subs[k].nome = dashCodes ∧ |subs[k].importo - c.importo| < 1 / 100) ∧
      ¬(|sumAmt (subs.take (k + 1)) - c.importo| < 1 / 100) ∧
      |sumAmt (subs.take (k + 1))| ≤ |c.importo| + 1 / 100)
    (hr1 : ¬(r.nome = dashCodes ∧ |r.importo - c.importo| < 1 / 100))
    (hr2 : ¬(|sumAmt subs + r.importo - c.importo| < 1 / 100))
    (hr3 : ¬(|sumAmt subs + r.importo| ≤ |c.importo| + 1 / 100)) :
    partitionRows (c :: (subs ++ r :: rest')) =
      (if subs.isEmpty then
        [⟨c.nome, none, c.importo, if 0 ≤ c.importo then .entrata else .uscita⟩]
      else
        subs.filterMap fun s =>
          if s.nome = dashCodes then none
          else some ⟨c.nome, some s.nome, s.importo,
            if 0 ≤ c.importo then .entrata else .uscita⟩)
        ++ partitionRows (r :: rest') := by
  have hrun : collectSubs c.importo 0 (subs ++ r :: rest') =
      (subs, r :: rest', .overshoot) := by
    apply collectSubs_overshoot_run
    · intro k hk
      have := hpref k hk
      simpa using this
    · exact hr1
    · simpa using hr2
    · simpa using hr3
  rw [partitionRows]
  rw [if_neg hc, hrun]
  simp only
  by_cases hemp : subs.isEmpty
  · rw [if_pos hemp, if_pos hemp]
    have : subs = [] := List.isEmpty_iff.mp hemp
    subst this
    simp
  · rw [if_neg hemp, if_neg hemp]

/-- The C1 witness scenario: category `A = 10`, accumulated row `B = 5`
(no match, within bounds), overshooting row `C = 8`. -/
theorem c1_overshoot_keeps_partial_witness :
    partitionRows [⟨[65], 10⟩, ⟨[66], 5⟩, ⟨[67], 8⟩] =
      (if ([⟨[66], 5⟩] : List RowData).isEmpty then
        [⟨[65], none, 10, if 0 ≤ (10 : ℚ) then .entrata else .uscita⟩]
      else
        ([⟨[66], 5⟩] : List RowData).filterMap fun s =>
          if s.nome = dashCodes then none
          else some ⟨[65], some s.nome, s.importo,
            if 0 ≤ (10 : ℚ) then .entrata else .uscita⟩)
        ++ partitionRows [⟨[67], 8⟩] := by
  have h := c1_overshoot_keeps_partial ⟨[65], 10⟩ [⟨[66], 5⟩] ⟨[67], 8⟩ []
    (by decide)
    (by
      intro k hk
      simp only [List.length_singleton] at hk
      have hk0 : k = 0 := by omega
      subst hk0
      refine ⟨by norm_num [dashCodes], ?_, ?_⟩ <;>
        norm_num [sumAmt, abs_le, abs_of_pos, abs_sub_comm])
    (by norm_num [dashCodes])
    (by norm_num [sumAmt, abs_of_pos])
    (by norm_num [sumAmt, abs_of_pos, abs_le])
  simpa using h

/-- A table realizing the C1 scenario: header, `A = 10`, `B = 5`, `C = 8`. -/
def tOverC1 : Table := [[Cell.text categoriaCodes],
  [Cell.text [65], Cell.num 10], [Cell.text [66], Cell.num 5],
  [Cell.text [67], Cell.num 8]]

/-- C1 (counterexample): on `tOverC1` the accumulation for category
`A = 10` adds `B = 5` (no match: `|5-10| ≥ 0.01`; within bounds:
`|5| ≤ 10.01`) and then overshoots at `C` (`|5+8| > 10.01`, no match)
without ever matching — yet `A` is NOT emitted as a flat entry: it is
emitted with subcategory `B`, refuting the claimed discard. -/
theorem c1_counterexample :
    (estrai_dati_categoria tOverC1).1 =
      [⟨[65], some [66], 5, .entrata⟩, ⟨[67], none, 8, .entrata⟩] ∧
      (collectRows (tOverC1.drop 1)).1 = [⟨[65], 10⟩, ⟨[66], 5⟩, ⟨[67], 8⟩] ∧
      ¬(|(5 : ℚ) - 10| < 1 / 100) ∧ |(5 : ℚ)| ≤ |(10 : ℚ)| + 1 / 100 ∧
      ¬(|(5 : ℚ) + 8 - 10| < 1 / 100) ∧ ¬(|(5 : ℚ) + 8| ≤ |(10 : ℚ)| + 1 / 100) ∧
      ¬(∀ e ∈ (estrai_dati_categoria tOverC1).1,
          e.categoria = [65] → e.sottocategoria = none) := by
  have heval : (estrai_dati_categoria tOverC1).1 =
      [⟨[65], some [66], 5, .entrata⟩, ⟨[67], none, 8, .entrata⟩] := by
    norm_num [estrai_dati_categoria, headerRow, findIdxO, rowMatchesHdr1, rowMatchesHdr2,
      lowerStr, toLowerC, pyStrCell, categoriaCodes, rowLabelsCodes, tOverC1, collectRows,
      labelOf, importoOf, stripWs, isWsC, nanCodes, blankCodes, grandTotalCodes,
      partitionRows, collectSubs, dashCodes, List.any, List.dropWhile, List.takeWhile,
      List.filterMap_cons, List.filterMap_nil]
  refine ⟨heval, ?_, ?_, ?_, ?_, ?_, ?_⟩
  · norm_num [tOverC1, collectRows, labelOf, importoOf, stripWs, isWsC, nanCodes,
      blankCodes, grandTotalCodes, lowerStr, toLowerC, pyStrCell, categoriaCodes,
      List.dropWhile, List.takeWhile]
  · rw [abs_sub_comm]; norm_num [abs_of_pos]
  · norm_num [abs_of_pos]
  · norm_num [abs_of_pos]
  · norm_num [abs_of_pos]
  · intro hall
    have := hall ⟨[65], some [66], 5, .entrata⟩ (by rw [heval]; exact List.mem_cons_self _ _) rfl
    exact absurd this (by simp)

/-! ## Claim C6 — the grand-total sentinel wins -/

theorem is2dec_round2 (q : ℚ) (h : is2dec q) : round2 q = q := by
  obtain ⟨n, rfl⟩ := h
  unfold round2 roundHalfEven
  have hq : (n : ℚ) / 100 * 100 = (n : ℚ) := by field_simp
  rw [hq]
  simp only [Int.floor_intCast]
  rw [sub_self]
  norm_num

theorem is2dec_add (a b : ℚ) (ha : is2dec a) (hb : is2dec b) : is2dec (a + b) := by
  obtain ⟨n, rfl⟩ := ha
  obtain ⟨m, rfl⟩ := hb
  exact ⟨n + m, by push_cast; ring⟩

theorem is2dec_zero : is2dec 0 := ⟨0, by norm_num⟩

theorem totali_2dec (l : List Entry) (h : ∀ e ∈ l, is2dec e.importo) :
    is2dec (totali l).1 ∧ is2dec (totali l).2 := by
  induction l with
  | nil => exact ⟨is2dec_zero, is2dec_zero⟩
  | cons e rest ih =>
    have hrest := ih (fun x hx => h x (List.mem_cons_of_mem e hx))
    have he := h e (List.mem_cons_self e rest)
    simp only [totali]
    rcases htot : totali rest with ⟨te, tu⟩
    rw [htot] at hrest
    cases htipo : e.tipo <;> simp only <;>
      exact ⟨by first
        | exact is2dec_add te e.importo hrest.1 he
        | exact hrest.1,
      by first
        | exact is2dec_add tu e.importo hrest.2 he
        | exact hrest.2⟩

theorem processSheet_riep (mese anno : Nat) (t : Table) :
    (processSheet mese anno t).2 =
      ⟨fmtData anno mese, fmtLabel mese anno, mese, anno,
        round2 (totali (estrai_dati_categoria t).1).1,
        round2 (totali (estrai_dati_categoria t).1).2,
        round2 (match (estrai_dati_categoria t).2 with
          | some g => g
          | none => (totali (estrai_dati_categoria t).1).1 +
              (totali (estrai_dati_categoria t).1).2)⟩ := by
  unfold processSheet
  rcases estrai_dati_categoria t with ⟨ris, gt⟩
  rcases htot : totali ris with ⟨te, tu⟩
  simp [htot]

/-- C6: for an accepted sheet whose amounts are exact two-decimal currency
values (the precision the specification assumes throughout), the balance
recorded in the period summary equals the captured grand-total sentinel
whenever one was found — even when it disagrees with the computed sum —
and equals `total_income + total_expense` otherwise. -/
theorem c6_saldo_prefers_sentinel (mese anno : Nat) (t : Table)
    (h1 : ∀ e ∈ (estrai_dati_categoria t).1, is2dec e.importo)
    (h2 : ∀ g, (estrai_dati_categoria t).2 = some g → is2dec g) :
    (∀ g, (estrai_dati_categoria t).2 = some g →
      (processSheet mese anno t).2.saldo = g) ∧
    ((estrai_dati_categoria t).2 = none →
      (processSheet mese anno t).2.saldo =
        (processSheet mese anno t).2.totale_entrate +
          (processSheet mese anno t).2.totale_uscite) := by
  have htot := totali_2dec (estrai_dati_categoria t).1 h1
  rw [processSheet_riep]
  constructor
  · intro g hg
    rw [hg]
    simp only
    exact is2dec_round2 g (h2 g hg)
  · intro hnone
    rw [hnone]
    simp only
    rw [is2dec_round2 _ htot.1, is2dec_round2 _ htot.2,
      is2dec_round2 _ (is2dec_add _ _ htot.1 htot.2)]

/-- A table whose grand-total sentinel (99) disagrees with the computed
sum of entries (10): header, `A = 10`, `Grand Total = 99`. -/
def tGtC6 : Table := [[Cell.text categoriaCodes],
  [Cell.text [65], Cell.num 10],
  [Cell.text [71, 114, 97, 110, 100, 32, 84, 111, 116, 97, 108], Cell.num 99]]

theorem c6_saldo_prefers_sentinel_witness :
    (estrai_dati_categoria tGtC6).2 = some 99 ∧
      (estrai_dati_categoria tGtC6).1 = [⟨[65], none, 10, .entrata⟩] ∧
      (processSheet 1 2024 tGtC6).2.saldo = 99 := by
  have heval : estrai_dati_categoria tGtC6 =
      ([⟨[65], none, 10, .entrata⟩], some 99) := by
    norm_num [estrai_dati_categoria, headerRow, findIdxO, rowMatchesHdr1, rowMatchesHdr2,
      lowerStr, toLowerC, pyStrCell, categoriaCodes, rowLabelsCodes, tGtC6, collectRows,
      labelOf, importoOf, stripWs, isWsC, nanCodes, blankCodes, grandTotalCodes,
      partitionRows, collectSubs, dashCodes, List.any, List.dropWhile, List.takeWhile,
      List.filterMap_cons, List.filterMap_nil]
  have hgt : (estrai_dati_categoria tGtC6).2 = some 99 := by rw [heval]
  have hris : (estrai_dati_categoria tGtC6).1 = [⟨[65], none, 10, .entrata⟩] := by rw [heval]
  refine ⟨hgt, hris, ?_⟩
  have h1 : ∀ e ∈ (estrai_dati_categoria tGtC6).1, is2dec e.importo := by
    intro e he
    rw [hris] at he
    rcases List.mem_singleton.mp he with rfl
    exact ⟨1000, by norm_num⟩
  have h2 : ∀ g, (estrai_dati_categoria tGtC6).2 = some g → is2dec g := by
    intro g hg
    rw [hgt] at hg
    rcases Option.some_inj.mp hg with rfl
    exact ⟨9900, by norm_num⟩
  exact (c6_saldo_prefers_sentinel 1 2024 tGtC6 h1 h2).1 99 hgt

/-! ## Claim C5 — filter verifier behaviour -/

theorem scanCellsV_eq_findIdxO (row : Row) :
    ∀ (cells : List Cell) (j : Nat),
      scanCellsV row j cells =
        (findIdxO isMarkerCell cells).map (fun k => markerVerdict row (j + k)) := by
  intro cells
  induction cells with
  | nil => intro j; simp [scanCellsV, findIdxO]
  | cons c rest ih =>
    intro j
    simp only [scanCellsV, findIdxO]
    by_cases hm : isMarkerCell c = true
    · simp [hm]
    · simp only [if_neg hm]
      rw [ih (j + 1)]
      cases findIdxO isMarkerCell rest with
      | none => simp
      | some k =>
        simp only [Option.map_some']
        have : j + 1 + k = j + (k + 1) := by omega
        rw [this]

theorem firstMarkerGo_shift :
    ∀ (rows : List Row) (i0 : Nat),
      firstMarkerGo rows i0 =
        (firstMarkerGo rows 0).map (fun p => (p.1 + i0, p.2)) := by
  intro rows
  induction rows with
  | nil => intro i0; simp [firstMarkerGo]
  | cons r rest ih =>
    intro i0
    simp only [firstMarkerGo]
    cases findIdxO isMarkerCell r with
    | some j => simp
    | none =>
      simp only
      rw [ih (i0 + 1), ih 1]
      cases firstMarkerGo rest 0 with
      | none => simp
      | some p =>
        simp only [Option.map_some', Option.map_map]
        have : p.1 + (i0 + 1) = p.1 + 1 + i0 := by omega
        simp [this]

theorem scanRowsV_spec :
    ∀ (rows : List Row),
      (firstMarkerGo rows 0 = none → scanRowsV rows = (true, some .advisory)) ∧
      (∀ i j, firstMarkerGo rows 0 = some (i, j) →
        ∃ r, rows[i]? = some r ∧ findIdxO isMarkerCell r = some j ∧
          scanRowsV rows = markerVerdict r j) := by
  intro rows
  induction rows with
  | nil =>
    constructor
    · intro _; rfl
    · intro i j h; simp [firstMarkerGo] at h
  | cons r rest ih =>
    have hscan : scanRowsV (r :: rest) =
        match scanCellsV r 0 r with
        | some res => res
        | none => scanRowsV rest := rfl
    constructor
    · intro hnone
      simp only [firstMarkerGo] at hnone
      cases hfi : findIdxO isMarkerCell r with
      | some j => rw [hfi] at hnone; exact absurd hnone (by simp)
      | none =>
        rw [hfi] at hnone
        simp only at hnone
        rw [firstMarkerGo_shift rest 1] at hnone
        have hrest0 : firstMarkerGo rest 0 = none := by
          cases hr0 : firstMarkerGo rest 0 with
          | none => rfl
          | some p => rw [hr0] at hnone; exact absurd hnone (by simp)
        rw [hscan, scanCellsV_eq_findIdxO r r 0, hfi]
        simp only [Option.map_none']
        exact (ih.1) hrest0
    · intro i j h
      simp only [firstMarkerGo] at h
      cases hfi : findIdxO isMarkerCell r with
      | some j0 =>
        rw [hfi] at h
        simp only [Option.some_inj, Prod.mk.injEq] at h
        obtain ⟨rfl, rfl⟩ := h
        refine ⟨r, by simp, hfi, ?_⟩
        rw [hscan, scanCellsV_eq_findIdxO r r 0, hfi]
        simp
      | none =>
        rw [hfi] at h
        simp only at h
        rw [firstMarkerGo_shift rest 1] at h
        cases hr0 : firstMarkerGo rest 0 with
        | none => rw [hr0] at h; exact absurd h (by simp)
        | some p =>
          rw [hr0] at h
          simp only [Option.map_some', Option.some_inj, Prod.mk.injEq] at h
          obtain ⟨hi, rfl⟩ := h
          rcases (ih.2) p.1 p.2 (by rw [hr0]) with ⟨r2, hr2, hfi2, hsc2⟩
          refine ⟨r2, ?_, hfi2, ?_⟩
          · have : i = p.1 + 1 := by omega
            subst this
            simpa using hr2
          · rw [hscan, scanCellsV_eq_findIdxO r r 0, hfi]
            simpa using hsc2

/-- C5: the verifier inspects at most the first five rows; when no cell of
that window contains the exclusion marker it passes with the advisory
message; when the first marker cell (row-major) sits at `(i, j)`, the
verdict is decided by the adjacent cell at column `j + 1` of that row:
equal (case-insensitively, and non-null) to the blank sentinel → pass with
no message; present with any other content → fail with a message naming
that value; absent (marker in the last column) → fail with the
"filter value not found" message. -/
theorem c5_verifier_cases (t : Table) :
    (verifica_filtro_escludi t = verifica_filtro_escludi (t.take 5)) ∧
    (firstMarker t = none → verifica_filtro_escludi t = (true, some .advisory)) ∧
    (∀ i j, firstMarker t = some (i, j) →
      ∃ r, t[i]? = some r ∧
        (∀ c2, r[j + 1]? = some c2 → isBlankCell c2 = true →
          verifica_filtro_escludi t = (true, none)) ∧
        (∀ c2, r[j + 1]? = some c2 → isBlankCell c2 = false →
          verifica_filtro_escludi t = (false, some (.wrongValue (pyStrCell c2)))) ∧
        (r[j + 1]? = none →
          verifica_filtro_escludi t = (false, some .valueNotFound))) := by
  refine ⟨?_, ?_, ?_⟩
  · simp [verifica_filtro_escludi, List.take_take]
  · intro hnone
    exact (scanRowsV_spec (t.take 5)).1 hnone
  · intro i j h
    rcases (scanRowsV_spec (t.take 5)).2 i j h with ⟨r, hr, hfi, hsc⟩
    have hlt : i < (t.take 5).length := by
      rcases List.getElem?_eq_some_iff.mp hr with ⟨hlt, _⟩
      exact hlt
    have h5 : i < 5 := by
      have := (List.length_take 5 t) ▸ hlt
      omega
    have hti : t[i]? = some r := by
      rw [List.getElem?_take, if_pos h5] at hr
      exact hr
    refine ⟨r, hti, ?_, ?_, ?_⟩
    · intro c2 hc2 hblank
      show scanRowsV (t.take 5) = _
      rw [hsc]
      unfold markerVerdict
      rw [hc2]
      simp [hblank]
    · intro c2 hc2 hblank
      show scanRowsV (t.take 5) = _
      rw [hsc]
      unfold markerVerdict
      rw [hc2]
      simp [hblank]
    · intro hc2
      show scanRowsV (t.take 5) = _
      rw [hsc]
      unfold markerVerdict
      rw [hc2]

theorem c5_verifier_cases_witness :
    firstMarker [[Cell.text [69, 115, 99, 108, 117, 100, 105], Cell.text blankCodes]] =
        some (0, 0) ∧
      verifica_filtro_escludi
        [[Cell.text [69, 115, 99, 108, 117, 100, 105], Cell.text blankCodes]] =
        (true, none) := by
  have hfm : firstMarker
      [[Cell.text [69, 115, 99, 108, 117, 100, 105], Cell.text blankCodes]] =
      some (0, 0) := by decide
  refine ⟨hfm, ?_⟩
  rcases (c5_verifier_cases
      [[Cell.text [69, 115, 99, 108, 117, 100, 105], Cell.text blankCodes]]).2.2
      0 0 hfm with ⟨r, hr, hblankCase, _, _⟩
  have hrval : [Cell.text [69, 115, 99, 108, 117, 100, 105], Cell.text blankCodes] = r := by
    simpa using hr
  subst hrval
  exact hblankCase (Cell.text blankCodes) (by decide) (by decide)

/-! ## Claim C7 — order of the final collections: string-order lemmas -/

theorem lexLtB_irrefl : ∀ a, lexLtB a a = false := by
  intro a
  induction a with
  | nil => rfl
  | cons x xs ih => simp [lexLtB, ih]

theorem lexLtB_trans : ∀ a b c, lexLtB a b = true → lexLtB b c = true →
    lexLtB a c = true := by
  intro a
  induction a with
  | nil =>
    intro b c hab hbc
    cases b with
    | nil => exact absurd hab (by simp [lexLtB])
    | cons y ys =>
      cases c with
      | nil => exact absurd hbc (by simp [lexLtB])
      | cons z zs => simp [lexLtB]
  | cons x xs ih =>
    intro b c hab hbc
    cases b with
    | nil => exact absurd hab (by simp [lexLtB])
    | cons y ys =>
      cases c with
      | nil => exact absurd hbc (by simp [lexLtB])
      | cons z zs =>
        simp only [lexLtB, Bool.or_eq_true, Bool.and_eq_true, decide_eq_true_eq] at hab hbc ⊢
        rcases hab with h1 | ⟨h1, h1'⟩ <;> rcases hbc with h2 | ⟨h2, h2'⟩
        · exact Or.inl (by omega)
        · exact Or.inl (by omega)
        · exact Or.inl (by omega)
        · exact Or.inr ⟨by omega, ih ys zs h1' h2'⟩

theorem lexLtB_total : ∀ a b, lexLtB a b = true ∨ a = b ∨ lexLtB b a = true := by
  intro a
  induction a with
  | nil =>
    intro b
    cases b with
    | nil => exact Or.inr (Or.inl rfl)
    | cons y ys => exact Or.inl (by simp [lexLtB])
  | cons x xs ih =>
    intro b
    cases b with
    | nil => exact Or.inr (Or.inr (by simp [lexLtB]))
    | cons y ys =>
      rcases Nat.lt_trichotomy x y with hxy | hxy | hxy
      · exact Or.inl (by simp [lexLtB, hxy])
      · rcases ih ys with h | h | h
        · exact Or.inl (by simp [lexLtB, hxy, h])
        · exact Or.inr (Or.inl (by rw [hxy, h]))
        · exact Or.inr (Or.inr (by simp [lexLtB, hxy.symm, h]))
      · exact Or.inr (Or.inr (by simp [lexLtB, hxy]))

theorem lexLeB_trans : ∀ a b c, lexLeB a b = true → lexLeB b c = true →
    lexLeB a c = true := by
  intro a b c hab hbc
  simp only [lexLeB, Bool.or_eq_true, decide_eq_true_eq] at hab hbc ⊢
  rcases hab with h1 | rfl
  · rcases hbc with h2 | rfl
    · exact Or.inl (lexLtB_trans a b c h1 h2)
    · exact Or.inl h1
  · exact hbc

theorem lexLeB_total : ∀ a b, lexLeB a b = true ∨ lexLeB b a = true := by
  intro a b
  simp only [lexLeB, Bool.or_eq_true, decide_eq_true_eq]
  rcases lexLtB_total a b with h | rfl | h
  · exact Or.inl (Or.inl h)
  · exact Or.inl (Or.inr rfl)
  · exact Or.inr (Or.inl h)

instance : IsTrans Riep riepLe where
  trans := fun a b c hab hbc => lexLeB_trans a.data b.data c.data hab hbc

instance : IsTotal Riep riepLe where
  total := fun a b => lexLeB_total a.data b.data

theorem lexLtB_asymm (a b : List Nat) (h : lexLtB a b = true) :
    lexLtB b a = false := by
  cases hba : lexLtB b a with
  | false => rfl
  | true =>
    have := lexLtB_trans a b a h hba
    rw [lexLtB_irrefl a] at this
    exact absurd this (by simp)

instance : IsTrans Det detLe where
  trans := by
    intro a b c hab hbc
    simp only [detLe, Bool.or_eq_true, Bool.and_eq_true, decide_eq_true_eq] at hab hbc ⊢
    rcases hab with h1 | ⟨h1, h1'⟩ <;> rcases hbc with h2 | ⟨h2, h2'⟩
    · exact Or.inl (lexLtB_trans _ _ _ h1 h2)
    · exact Or.inl (h2 ▸ h1)
    · exact Or.inl (h1 ▸ h2)
    · exact Or.inr ⟨h1.trans h2, lexLeB_trans _ _ _ h1' h2'⟩

instance : IsTotal Det detLe where
  total := by
    intro a b
    simp only [detLe, Bool.or_eq_true, Bool.and_eq_true, decide_eq_true_eq]
    rcases lexLtB_total a.data b.data with h | h | h
    · exact Or.inl (Or.inl h)
    · rcases lexLeB_total a.categoria b.categoria with hc | hc
      · exact Or.inl (Or.inr ⟨h, hc⟩)
      · exact Or.inr (Or.inr ⟨h.symm, hc⟩)
    · exact Or.inr (Or.inl h)

/-! ## Claim C7 — decimal formatting vs string order -/

theorem natDigitsBE_small (n : Nat) (h : n < 10) : natDigitsBE n = [n] := by
  rw [natDigitsBE]
  exact dif_pos h

theorem natDigitsBE_step (n : Nat) (h : ¬ n < 10) :
    natDigitsBE n = natDigitsBE (n / 10) ++ [n % 10] := by
  rw [natDigitsBE]
  exact dif_neg h

theorem natDigitsBE_four (y : Nat) (h1 : 1000 ≤ y) (h2 : y ≤ 9999) :
    natDigitsBE y = [y / 1000, y / 100 % 10, y / 10 % 10, y % 10] := by
  have e1 : y / 10 / 10 = y / 100 := by
    rw [Nat.div_div_eq_div_mul]
  have e2 : y / 100 / 10 = y / 1000 := by
    rw [Nat.div_div_eq_div_mul]
  rw [natDigitsBE_step y (by omega),
    natDigitsBE_step (y / 10) (by omega), e1,
    natDigitsBE_step (y / 100) (by omega), e2,
    natDigitsBE_small (y / 1000) (by omega)]
  simp

theorem pad2_two (m : Nat) (h : m ≤ 99) :
    pad2 m = [m / 10 + 48, m % 10 + 48] := by
  unfold pad2 natStr
  by_cases hm : m < 10
  · rw [if_pos hm, natDigitsBE_small m hm]
    simp only [List.map_cons, List.map_nil]
    have : m / 10 = 0 := by omega
    rw [this]
    have : m % 10 = m := by omega
    rw [this]
  · rw [if_neg hm, natDigitsBE_step m hm,
      natDigitsBE_small (m / 10) (by omega)]
    simp

theorem fmtData_digits (y m : Nat) (hy1 : 1000 ≤ y) (hy2 : y ≤ 9999)
    (hm : m ≤ 99) :
    fmtData y m = [y / 1000 + 48, y / 100 % 10 + 48, y / 10 % 10 + 48,
      y % 10 + 48, 45, m / 10 + 48, m % 10 + 48] := by
  unfold fmtData natStr
  rw [natDigitsBE_four y hy1 hy2, pad2_two m hm]
  simp

theorem fmtData_lt_forward (y1 m1 y2 m2 : Nat)
    (hy1a : 1000 ≤ y1) (hy1b : y1 ≤ 9999) (hm1 : m1 ≤ 99)
    (hy2a : 1000 ≤ y2) (hy2b : y2 ≤ 9999) (hm2 : m2 ≤ 99)
    (h : lexLtB (fmtData y1 m1) (fmtData y2 m2) = true) :
    y1 < y2 ∨ (y1 = y2 ∧ m1 < m2) := by
  rw [fmtData_digits y1 m1 hy1a hy1b hm1, fmtData_digits y2 m2 hy2a hy2b hm2] at h
  simp only [lexLtB, Bool.or_eq_true, Bool.and_eq_true, decide_eq_true_eq,
    Bool.false_eq_true, or_false, and_false] at h
  have ea : y1 / 10 / 10 = y1 / 100 := by rw [Nat.div_div_eq_div_mul]
  have eb : y1 / 100 / 10 = y1 / 1000 := by rw [Nat.div_div_eq_div_mul]
  have ec : y2 / 10 / 10 = y2 / 100 := by rw [Nat.div_div_eq_div_mul]
  have ed : y2 / 100 / 10 = y2 / 1000 := by rw [Nat.div_div_eq_div_mul]
  omega

theorem fmtData_inj_iff (y1 m1 y2 m2 : Nat)
    (hy1a : 1000 ≤ y1) (hy1b : y1 ≤ 9999) (hm1 : m1 ≤ 99)
    (hy2a : 1000 ≤ y2) (hy2b : y2 ≤ 9999) (hm2 : m2 ≤ 99) :
    fmtData y1 m1 = fmtData y2 m2 ↔ (y1 = y2 ∧ m1 = m2) := by
  rw [fmtData_digits y1 m1 hy1a hy1b hm1, fmtData_digits y2 m2 hy2a hy2b hm2]
  simp only [List.cons.injEq, and_true]
  have ea : y1 / 10 / 10 = y1 / 100 := by rw [Nat.div_div_eq_div_mul]
  have eb : y1 / 100 / 10 = y1 / 1000 := by rw [Nat.div_div_eq_div_mul]
  have ec : y2 / 10 / 10 = y2 / 100 := by rw [Nat.div_div_eq_div_mul]
  have ed : y2 / 100 / 10 = y2 / 1000 := by rw [Nat.div_div_eq_div_mul]
  constructor
  · intro h
    omega
  · rintro ⟨rfl, rfl⟩
    simp

theorem fmtData_lt_iff (y1 m1 y2 m2 : Nat)
    (hy1a : 1000 ≤ y1) (hy1b : y1 ≤ 9999) (hm1 : m1 ≤ 99)
    (hy2a : 1000 ≤ y2) (hy2b : y2 ≤ 9999) (hm2 : m2 ≤ 99) :
    lexLtB (fmtData y1 m1) (fmtData y2 m2) = true ↔
      (y1 < y2 ∨ (y1 = y2 ∧ m1 < m2)) := by
  constructor
  · exact fmtData_lt_forward y1 m1 y2 m2 hy1a hy1b hm1 hy2a hy2b hm2
  · intro h
    rcases lexLtB_total (fmtData y1 m1) (fmtData y2 m2) with hlt | heq | hgt
    · exact hlt
    · have := (fmtData_inj_iff y1 m1 y2 m2 hy1a hy1b hm1 hy2a hy2b hm2).mp heq
      omega
    · have := fmtData_lt_forward y2 m2 y1 m1 hy2a hy2b hm2 hy1a hy1b hm1 hgt
      omega

/-! ## Claim C7 — provenance of the aggregated rows -/

theorem estraiMY_le (s : List Nat) (m y : Nat)
    (h : estrai_mese_anno s = some (m, y)) : m ≤ 99 ∧ y ≤ 9999 := by
  induction s with
  | nil => simp [estrai_mese_anno] at h
  | cons c rest ih =>
    rw [estrai_mese_anno] at h
    cases hm : matchMYHere (c :: rest) with
    | some my =>
      rw [hm] at h
      simp only [Option.some_inj] at h
      subst h
      exact matchMYHere_bounds _ m y hm
    | none =>
      rw [hm] at h
      exact ih h

theorem processSheet_fst (mese anno : Nat) (t : Table) :
    (processSheet mese anno t).1 =
      (estrai_dati_categoria t).1.map (fun e =>
        ⟨fmtData anno mese, fmtLabel mese anno, mese, anno,
          e.categoria, e.sottocategoria, e.importo, e.tipo⟩) := by
  unfold processSheet
  rcases estrai_dati_categoria t with ⟨ris, gt⟩
  rcases htot : totali ris with ⟨te, tu⟩
  simp [htot]

theorem elaboraGo_cons_some (name : List Nat) (t : Table)
    (rest : List (List Nat × Table)) (mese anno : Nat)
    (h : estrai_mese_anno name = some (mese, anno)) :
    elaboraGo ((name, t) :: rest) =
      ((processSheet mese anno t).1 ++ (elaboraGo rest).1,
        (processSheet mese anno t).2 :: (elaboraGo rest).2) := by
  rw [elaboraGo, h]

theorem elaboraGo_cons_none (name : List Nat) (t : Table)
    (rest : List (List Nat × Table))
    (h : estrai_mese_anno name = none) :
    elaboraGo ((name, t) :: rest) = elaboraGo rest := by
  rw [elaboraGo, h]

theorem elaboraGo_riep_inv (l : List (List Nat × Table)) (r : Riep)
    (hr : r ∈ (elaboraGo l).2) :
    ∃ nm tb, (nm, tb) ∈ l ∧ estrai_mese_anno nm = some (r.mese, r.anno) ∧
      r.data = fmtData r.anno r.mese := by
  induction l with
  | nil => simp [elaboraGo] at hr
  | cons p rest ih =>
    rcases p with ⟨name, t⟩
    cases hmy : estrai_mese_anno name with
    | none =>
      rw [elaboraGo_cons_none name t rest hmy] at hr
      rcases ih hr with ⟨nm, tb, hmem, hrest⟩
      exact ⟨nm, tb, List.mem_cons_of_mem _ hmem, hrest⟩
    | some my =>
      rcases my with ⟨mese, anno⟩
      rw [elaboraGo_cons_some name t rest mese anno hmy] at hr
      simp only at hr
      rcases List.mem_cons.mp hr with rfl | hr2
      · refine ⟨name, t, List.mem_cons_self _ _, ?_, ?_⟩
        · rw [processSheet_riep]
          exact hmy
        · rw [processSheet_riep]
      · rcases ih hr2 with ⟨nm, tb, hmem, hrest⟩
        exact ⟨nm, tb, List.mem_cons_of_mem _ hmem, hrest⟩

theorem elaboraGo_det_inv (l : List (List Nat × Table)) (d : Det)
    (hd : d ∈ (elaboraGo l).1) :
    ∃ nm tb, (nm, tb) ∈ l ∧ estrai_mese_anno nm = some (d.mese, d.anno) ∧
      d.data = fmtData d.anno d.mese := by
  induction l with
  | nil => simp [elaboraGo] at hd
  | cons p rest ih =>
    rcases p with ⟨name, t⟩
    cases hmy : estrai_mese_anno name with
    | none =>
      rw [elaboraGo_cons_none name t rest hmy] at hd
      rcases ih hd with ⟨nm, tb, hmem, hrest⟩
      exact ⟨nm, tb, List.mem_cons_of_mem _ hmem, hrest⟩
    | some my =>
      rcases my with ⟨mese, anno⟩
      rw [elaboraGo_cons_some name t rest mese anno hmy] at hd
      simp only at hd
      rcases List.mem_append.mp hd with hin | hd2
      · rw [processSheet_fst] at hin
        rcases List.mem_map.mp hin with ⟨e, _, rfl⟩
        exact ⟨name, t, List.mem_cons_self _ _, hmy, rfl⟩
      · rcases ih hd2 with ⟨nm, tb, hmem, hrest⟩
        exact ⟨nm, tb, List.mem_cons_of_mem _ hmem, hrest⟩

theorem elabora_riep_inv (sheets : List (List Nat × Table)) (r : Riep)
    (hr : r ∈ (elabora_tutti_i_pivot sheets).2) :
    ∃ nm tb, (nm, tb) ∈ sheets ∧ estrai_mese_anno nm = some (r.mese, r.anno) ∧
      r.data = fmtData r.anno r.mese := by
  unfold elabora_tutti_i_pivot at hr
  rcases elaboraGo_riep_inv _ r hr with ⟨nm, tb, hmem, hrest⟩
  have hmem2 := (List.perm_insertionSort nameLe _).mem_iff.mp hmem
  exact ⟨nm, tb, (List.mem_filter.mp hmem2).1, hrest⟩

theorem elabora_det_inv (sheets : List (List Nat × Table)) (d : Det)
    (hd : d ∈ (elabora_tutti_i_pivot sheets).1) :
    ∃ nm tb, (nm, tb) ∈ sheets ∧ estrai_mese_anno nm = some (d.mese, d.anno) ∧
      d.data = fmtData d.anno d.mese := by
  unfold elabora_tutti_i_pivot at hd
  rcases elaboraGo_det_inv _ d hd with ⟨nm, tb, hmem, hrest⟩
  have hmem2 := (List.perm_insertionSort nameLe _).mem_iff.mp hmem
  exact ⟨nm, tb, (List.mem_filter.mp hmem2).1, hrest⟩

/-! ## Claim C7 — the final sort orders -/

/-- C7 (amended): the final collections are sorted by the period STRING key
`f"{anno}-{mese:02d}"` (and category string for the detail rows); this
coincides with ascending `(year, month)` — regardless of sheet enumeration
order — provided every accepted year is four-digit (1000..9999), because
the year is rendered without padding.  Summaries come out sorted by
`(year, month)` and detail rows by `((year, month), category)`. -/
theorem c7_final_sort_order (sheets : List (List Nat × Table))
    (hY : ∀ p ∈ sheets, ∀ m y, estrai_mese_anno p.1 = some (m, y) → 1000 ≤ y) :
    List.Sorted ymLe
      (salva_risultati (elabora_tutti_i_pivot sheets).1
        (elabora_tutti_i_pivot sheets).2).2 ∧
    List.Sorted detYmLe
      (salva_risultati (elabora_tutti_i_pivot sheets).1
        (elabora_tutti_i_pivot sheets).2).1 := by
  constructor
  · show List.Sorted ymLe
      (List.insertionSort riepLe (elabora_tutti_i_pivot sheets).2)
    have hsorted : List.Sorted riepLe
        (List.insertionSort riepLe (elabora_tutti_i_pivot sheets).2) :=
      List.sorted_insertionSort riepLe _
    refine List.Pairwise.imp_of_mem ?_ hsorted
    intro a b ha hb hab
    have ha2 := (List.perm_insertionSort riepLe _).mem_iff.mp ha
    have hb2 := (List.perm_insertionSort riepLe _).mem_iff.mp hb
    rcases elabora_riep_inv sheets a ha2 with ⟨nma, tba, hma, hmya, hdataa⟩
    rcases elabora_riep_inv sheets b hb2 with ⟨nmb, tbb, hmb, hmyb, hdatab⟩
    have hba := estraiMY_le nma a.mese a.anno hmya
    have hbb := estraiMY_le nmb b.mese b.anno hmyb
    have hya := hY (nma, tba) hma a.mese a.anno hmya
    have hyb := hY (nmb, tbb) hmb b.mese b.anno hmyb
    unfold riepLe lexLeB at hab
    simp only [Bool.or_eq_true, decide_eq_true_eq] at hab
    unfold ymLe
    rcases hab with hlt | heq
    · rw [hdataa, hdatab] at hlt
      have := (fmtData_lt_iff a.anno a.mese b.anno b.mese
        hya hba.2 hba.1 hyb hbb.2 hbb.1).mp hlt
      rcases this with h | ⟨h1, h2⟩
      · exact Or.inl h
      · exact Or.inr ⟨h1, Nat.le_of_lt h2⟩
    · rw [hdataa, hdatab] at heq
      have := (fmtData_inj_iff a.anno a.mese b.anno b.mese
        hya hba.2 hba.1 hyb hbb.2 hbb.1).mp heq
      exact Or.inr ⟨this.1, this.2 ▸ le_refl _⟩
  · show List.Sorted detYmLe
      (List.insertionSort detLe (elabora_tutti_i_pivot sheets).1)
    have hsorted : List.Sorted detLe
        (List.insertionSort detLe (elabora_tutti_i_pivot sheets).1) :=
      List.sorted_insertionSort detLe _
    refine List.Pairwise.imp_of_mem ?_ hsorted
    intro a b ha hb hab
    have ha2 := (List.perm_insertionSort detLe _).mem_iff.mp ha
    have hb2 := (List.perm_insertionSort detLe _).mem_iff.mp hb
    rcases elabora_det_inv sheets a ha2 with ⟨nma, tba, hma, hmya, hdataa⟩
    rcases elabora_det_inv sheets b hb2 with ⟨nmb, tbb, hmb, hmyb, hdatab⟩
    have hba := estraiMY_le nma a.mese a.anno hmya
    have hbb := estraiMY_le nmb b.mese b.anno hmyb
    have hya := hY (nma, tba) hma a.mese a.anno hmya
    have hyb := hY (nmb, tbb) hmb b.mese b.anno hmyb
    unfold detLe at hab
    simp only [Bool.or_eq_true, Bool.and_eq_true, decide_eq_true_eq] at hab
    unfold detYmLe
    rcases hab with hlt | ⟨heq, hcat⟩
    · rw [hdataa, hdatab] at hlt
      have := (fmtData_lt_iff a.anno a.mese b.anno b.mese
        hya hba.2 hba.1 hyb hbb.2 hbb.1).mp hlt
      rcases this with h | ⟨h1, h2⟩
      · exact Or.inl (Or.inl h)
      · exact Or.inl (Or.inr ⟨h1, h2⟩)
    · rw [hdataa, hdatab] at heq
      have := (fmtData_inj_iff a.anno a.mese b.anno b.mese
        hya hba.2 hba.1 hyb hbb.2 hbb.1).mp heq
      exact Or.inr ⟨this.1, this.2, hcat⟩

/-- The sheet name `"Pivot 01-2024"`. -/
def nome2024 : List Nat := [80, 105, 118, 111, 116, 32, 48, 49, 45, 50, 48, 50, 52]

theorem c7_final_sort_order_witness :
    List.Sorted ymLe
      (salva_risultati (elabora_tutti_i_pivot [(nome2024, ([[]] : Table))]).1
        (elabora_tutti_i_pivot [(nome2024, ([[]] : Table))]).2).2 := by
  have hY : ∀ p ∈ [(nome2024, ([[]] : Table))], ∀ m y,
      estrai_mese_anno p.1 = some (m, y) → 1000 ≤ y := by
    intro p hp m y h
    rcases List.mem_singleton.mp hp with rfl
    rw [show estrai_mese_anno nome2024 = some (1, 2024) from by decide] at h
    simp only [Option.some_inj, Prod.mk.injEq] at h
    omega
  exact (c7_final_sort_order [(nome2024, ([[]] : Table))] hY).1

/-- The sheet name `"Pivot 01-0999"` (a four-digit year below 1000). -/
def nome0999 : List Nat := [80, 105, 118, 111, 116, 32, 48, 49, 45, 48, 57, 57, 57]

/-- The sheet name `"Pivot 02-1000"`. -/
def nome1000 : List Nat := [80, 105, 118, 111, 116, 32, 48, 50, 45, 49, 48, 48, 48]

/-- C7 (counterexample): with sheets `"Pivot 01-0999"` (period 01/0999) and
`"Pivot 02-1000"` (period 02/1000) the final summary collection is sorted
by the STRING `"999-01" > "1000-02"`, so it comes out `[year 1000, year
999]` — NOT ascending by `(year, month)`. -/
theorem c7_counterexample :
    ¬ List.Sorted ymLe
      (salva_risultati
        (elabora_tutti_i_pivot [(nome0999, ([[]] : Table)), (nome1000, [[]])]).1
        (elabora_tutti_i_pivot [(nome0999, ([[]] : Table)), (nome1000, [[]])]).2).2 := by
  have h1 : estrai_mese_anno nome0999 = some (1, 999) := by decide
  have h2 : estrai_mese_anno nome1000 = some (2, 1000) := by decide
  have hfil : (([(nome0999, ([[]] : Table)), (nome1000, [[]])]).filter
      (fun s => startsWithB pivotCodes (lowerStr s.1))) =
      [(nome0999, [[]]), (nome1000, [[]])] := by decide
  have hsort : List.insertionSort nameLe
      [(nome0999, ([[]] : Table)), (nome1000, [[]])] =
      [(nome0999, [[]]), (nome1000, [[]])] := by
    simp only [List.insertionSort, List.orderedInsert]
    rw [if_pos (show nameLe (nome0999, [[]]) (nome1000, [[]]) from by decide)]
  have helab2 : (elabora_tutti_i_pivot
      [(nome0999, ([[]] : Table)), (nome1000, [[]])]).2 =
      [(processSheet 1 999 ([[]] : Table)).2, (processSheet 2 1000 ([[]] : Table)).2] := by
    unfold elabora_tutti_i_pivot
    rw [hfil, hsort, elaboraGo_cons_some _ _ _ 1 999 h1,
      elaboraGo_cons_some _ _ _ 2 1000 h2]
    rfl
  have hfd1 : (processSheet 1 999 ([[]] : Table)).2.data = fmtData 999 1 := by
    rw [processSheet_riep]
  have hfd2 : (processSheet 2 1000 ([[]] : Table)).2.data = fmtData 1000 2 := by
    rw [processSheet_riep]
  have ha1 : (processSheet 1 999 ([[]] : Table)).2.anno = 999 := by
    rw [processSheet_riep]
  have ha2 : (processSheet 2 1000 ([[]] : Table)).2.anno = 1000 := by
    rw [processSheet_riep]
  have hd999 : natDigitsBE 999 = [9, 9, 9] := by
    rw [natDigitsBE_step 999 (by norm_num)]
    rw [show (999 : Nat) / 10 = 99 from by norm_num,
      show (999 : Nat) % 10 = 9 from by norm_num]
    rw [natDigitsBE_step 99 (by norm_num)]
    rw [show (99 : Nat) / 10 = 9 from by norm_num,
      show (99 : Nat) % 10 = 9 from by norm_num]
    rw [natDigitsBE_small 9 (by norm_num)]
    rfl
  have hf999 : fmtData 999 1 = [57, 57, 57, 45, 48, 49] := by
    simp only [fmtData, pad2, natStr]
    rw [hd999, if_pos (show (1 : Nat) < 10 by norm_num),
      natDigitsBE_small 1 (by norm_num)]
    norm_num
  have hf1000 : fmtData 1000 2 = [49, 48, 48, 48, 45, 48, 50] := by
    simp only [fmtData, pad2, natStr]
    rw [natDigitsBE_four 1000 (by norm_num) (by norm_num),
      if_pos (show (2 : Nat) < 10 by norm_num),
      natDigitsBE_small 2 (by norm_num)]
    norm_num
  have hnle : ¬ riepLe (processSheet 1 999 ([[]] : Table)).2
      (processSheet 2 1000 ([[]] : Table)).2 := by
    unfold riepLe
    rw [hfd1, hfd2, hf999, hf1000]
    decide
  have hlist : (salva_risultati
      (elabora_tutti_i_pivot [(nome0999, ([[]] : Table)), (nome1000, [[]])]).1
      (elabora_tutti_i_pivot [(nome0999, ([[]] : Table)), (nome1000, [[]])]).2).2 =
      [(processSheet 2 1000 ([[]] : Table)).2, (processSheet 1 999 ([[]] : Table)).2] := by
    show List.insertionSort riepLe _ = _
    rw [helab2]
    simp only [List.insertionSort, List.orderedInsert]
    rw [if_neg hnle]
  intro hs
  rw [hlist] at hs
  have hrel := (List.sorted_cons.mp hs).1 (processSheet 1 999 ([[]] : Table)).2
    (List.mem_singleton.mpr rfl)
  unfold ymLe at hrel
  rw [ha1, ha2] at hrel
  omega

end Flussi
